import Mathlib

set_option maxHeartbeats 1000000

noncomputable section

open Classical

namespace crpropa

/-! Shallow embedding of the CRPropa Boris-push propagation modules
(PropagationRS.cpp, PropagationBP.cpp, Scatter.cpp).  Machine doubles are
modelled as real numbers; the C++ while loop is modelled with explicit fuel;
a possibly-throwing field model is modelled as an Option-valued function.
The number of Boris-push (dY) evaluations, i.e. of field samples, is threaded
through the functions as an explicit natural-number count. -/

/-- Three-component real vector: the shallow embedding of CRPropa's Vector3d. -/
structure Vector3 where
  x : ℝ
  y : ℝ
  z : ℝ

namespace Vector3

instance : Add Vector3 := ⟨fun a b => ⟨a.x + b.x, a.y + b.y, a.z + b.z⟩⟩

instance : Sub Vector3 := ⟨fun a b => ⟨a.x - b.x, a.y - b.y, a.z - b.z⟩⟩

instance : HMul Vector3 ℝ Vector3 := ⟨fun v a => ⟨v.x * a, v.y * a, v.z * a⟩⟩

instance : HDiv Vector3 ℝ Vector3 := ⟨fun v a => ⟨v.x / a, v.y / a, v.z / a⟩⟩

/-- The zero vector, the value of a default-constructed Vector3d. -/
def zero : Vector3 := ⟨0, 0, 0⟩

/-- Dot product. -/
def dot (a b : Vector3) : ℝ := a.x * b.x + a.y * b.y + a.z * b.z

/-- Cross product. -/
def cross (a b : Vector3) : Vector3 :=
  ⟨a.y * b.z - a.z * b.y, a.z * b.x - a.x * b.z, a.x * b.y - a.y * b.x⟩

/-- Squared Euclidean norm. -/
def normSq (v : Vector3) : ℝ := v.dot v

/-- Euclidean norm, CRPropa's getR. -/
def getR (v : Vector3) : ℝ := Real.sqrt v.normSq

/-- Modelled from the spec: Vector3.h is not among the source files; the spec
states the direction invariant is maintained by renormalizing to unit length,
so getUnitVector divides the vector by its norm. -/
def getUnitVector (v : Vector3) : Vector3 := v / v.getR

/-- Rodrigues rotation of v by the given angle about the (already unit) axis u. -/
def rodrigues (v u : Vector3) (angle : ℝ) : Vector3 :=
  v * Real.cos angle + (u.cross v) * Real.sin angle +
    u * (u.dot v * (1 - Real.cos angle))

/-- Modelled from the spec: Vector3.h is not among the source files; the spec
describes getRotated as rotating the vector about the given axis by the given
angle, i.e. the standard rotation about the normalized axis. -/
def getRotated (v axis : Vector3) (angle : ℝ) : Vector3 :=
  rodrigues v axis.getUnitVector angle

end Vector3

/-- Speed of light in m/s, CRPropa's c_light. -/
def c_light : ℝ := 299792458

/-- Modelled from the spec: the clip utility of the missing CRPropa base header,
described by the spec as clipping a value into the interval given by the two
bounds. -/
def clip (v lo hi : ℝ) : ℝ := max lo (min v hi)

/-- Particle state: the fields of CRPropa's ParticleState that the propagation
modules read or write. -/
structure ParticleState where
  position : Vector3
  direction : Vector3
  energy : ℝ
  charge : ℝ
  nrScatter : ℕ

/-- Candidate: the fields of CRPropa's Candidate that the propagation modules
read or write. -/
structure Candidate where
  current : ParticleState
  previous : ParticleState
  redshift : ℝ
  currentStep : ℝ
  nextStep : ℝ

/-- The phase-space point struct Y of the propagation modules: position x and
direction u. -/
structure Y where
  x : Vector3
  u : Vector3

/-- Modelled from the spec: the propagation headers are not among the source
files; a default-constructed Y default-constructs its two Vector3d members,
which are zero vectors. -/
def Y.default : Y := ⟨Vector3.zero, Vector3.zero⟩

/-- A field model: pos and redshift to a field vector, or failure (exception).
A missing field (the null ref_ptr) is the outer Option. -/
def FieldModel : Type := Vector3 → ℝ → Option Vector3

namespace PropagationRS

/-- PropagationRS::getFieldAtPosition: returns the field at pos and redshift z,
catching any exception of the field model and returning the zero vector, also
when no field is set. -/
def getFieldAtPosition (field : Option FieldModel) (pos : Vector3) (z : ℝ) :
    Vector3 :=
  match field with
  | none => Vector3.zero
  | some f =>
    match f pos z with
    | none => Vector3.zero
    | some B => B

/-- PropagationRS::dY: one Boris push of length step, sampling the field (via
the total sampler obtained from getFieldAtPosition) at the half-stepped
position. -/
def dY (sample : Vector3 → ℝ → Vector3) (pos dir : Vector3)
    (step z q m : ℝ) : Y :=
  let pos1 : Vector3 := pos + dir * step / (2 : ℝ)
  let B : Vector3 := sample pos1 z
  let t : Vector3 := B * q / (2 : ℝ) / m * step / c_light
  let s : Vector3 := t * (2 : ℝ) / (1 + t.dot t)
  let v_help : Vector3 := dir + dir.cross t
  let dir1 : Vector3 := dir + v_help.cross s
  ⟨pos1 + dir1 * step / (2 : ℝ), dir1⟩

/-- dY together with the count of field samples it performs (one). -/
def dYn (sample : Vector3 → ℝ → Vector3) (pos dir : Vector3)
    (step z q m : ℝ) : Y × ℕ :=
  (dY sample pos dir step z q m, 1)

/-- PropagationRS::errorEstimation: step-doubling (Richardson) error metric. -/
def errorEstimation (x1 x2 : Vector3) (step : ℝ) : ℝ :=
  (x1 - x2).getR / (step * (1 - 1 / 4))

/-- PropagationRS::tryStep: one full step of size h and two half steps, with
the step-doubling error.  Modelled from the spec: the header's Y-from-double
conversion is not among the source files; the spec calls the loop's quantity
the error direction magnitude, here the errorEstimation scalar itself.
The third component counts dY evaluations (three). -/
def tryStep (sample : Vector3 → ℝ → Vector3) (y : Y) (h z m q : ℝ) :
    Y × ℝ × ℕ :=
  let o1 := dYn sample y.x y.u h z q m
  let o2 := dYn sample y.x y.u (h / 2) z q m
  let o3 := dYn sample o2.1.x o2.1.u (h / 2) z q m
  (o1.1, errorEstimation o1.1.x o3.1.x h, o1.2 + o2.2 + o3.2)

/-- The while-true step-adjustment loop of PropagationRS::process, with fuel.
tryF maps a step size to the step-doubling result: output point, error, and
dY-evaluation count.  State: remaining fuel, step, newStep, accumulated count.
Returns the accepted output point, the accepted step, the proposed next step,
and the total count, or none if the fuel runs out before the loop exits. -/
def adaptiveLoop (tryF : ℝ → Y × ℝ × ℕ) (tolerance minStep maxStep : ℝ) :
    ℕ → ℝ → ℝ → ℕ → Option (Y × ℝ × ℝ × ℕ)
  | 0, _, _, _ => none
  | n + 1, step, newStep, cnt =>
    let t := tryF step
    let cnt1 := cnt + t.2.2
    let r := t.2.1 / tolerance
    if 1 < r then
      if step = minStep then
        some (t.1, step, newStep, cnt1)
      else
        adaptiveLoop tryF tolerance minStep maxStep n
          (max (max (step * 0.95 * r ^ (-0.2 : ℝ)) (0.1 * step)) minStep)
          (max (max (step * 0.95 * r ^ (-0.2 : ℝ)) (0.1 * step)) minStep) cnt1
    else
      if step ≠ maxStep then
        some (t.1, step,
          min (min (step * 0.95 * r ^ (-0.2 : ℝ)) (5 * step)) maxStep, cnt1)
      else
        some (t.1, step, newStep, cnt1)

/-- PropagationRS::process.  Returns the updated candidate and the number of
dY evaluations (field samples), or none when the adaptive loop runs out of
fuel. -/
def process (sample : Vector3 → ℝ → Vector3)
    (tolerance minStep maxStep : ℝ) (fuel : ℕ) (cand : Candidate) :
    Option (Candidate × ℕ) :=
  let current := cand.current
  let yIn : Y := ⟨current.position, current.direction⟩
  let q := current.charge
  let step := maxStep
  if q = 0 then
    let s := clip cand.nextStep minStep maxStep
    some ({ cand with
            previous := current
            current := { current with position := yIn.x + yIn.u * s }
            currentStep := s
            nextStep := maxStep }, 0)
  else
    let z := cand.redshift
    let m := current.energy / (c_light * c_light)
    if minStep = maxStep then
      let t := tryStep sample yIn step z m q
      some ({ cand with
              previous := current
              current := { current with
                           position := t.1.x
                           direction := t.1.u.getUnitVector }
              currentStep := step
              nextStep := step }, t.2.2)
    else
      let step0 := clip cand.nextStep minStep maxStep
      match adaptiveLoop (fun h => tryStep sample yIn h z m q)
          tolerance minStep maxStep fuel step0 step0 0 with
      | none => none
      | some (yOut, st, ns, cnt) =>
        some ({ cand with
                previous := current
                current := { current with
                             position := yOut.x
                             direction := yOut.u.getUnitVector }
                currentStep := st
                nextStep := ns }, cnt)

end PropagationRS

namespace PropagationBP

/-- PropagationBP::getFieldAtPosition: identical fail-soft field access. -/
def getFieldAtPosition (field : Option FieldModel) (pos : Vector3) (z : ℝ) :
    Vector3 :=
  match field with
  | none => Vector3.zero
  | some f =>
    match f pos z with
    | none => Vector3.zero
    | some B => B

/-- PropagationBP::dY: one Boris push; also returns the sampled field B (the
C++ out-parameter). -/
def dY (sample : Vector3 → ℝ → Vector3) (pos dir : Vector3)
    (step z q m : ℝ) : Y × Vector3 :=
  let pos1 : Vector3 := pos + dir * step / (2 : ℝ)
  let B : Vector3 := sample pos1 z
  let t : Vector3 := B * q / (2 : ℝ) / m * step / c_light
  let s : Vector3 := t * (2 : ℝ) / (1 + t.dot t)
  let v_help : Vector3 := dir + dir.cross t
  let dir1 : Vector3 := dir + v_help.cross s
  (⟨pos1 + dir1 * step / (2 : ℝ), dir1⟩, B)

/-- dY together with the count of field samples it performs (one). -/
def dYn (sample : Vector3 → ℝ → Vector3) (pos dir : Vector3)
    (step z q m : ℝ) : (Y × Vector3) × ℕ :=
  (dY sample pos dir step z q m, 1)

/-- The scattering angle of PropagationBP::process: the generator is seeded
with the constant seed 1 (falling back to the current time only if the seed
were zero), and the drawn standard-normal scalar is modelled by the abstract
function gauss of the seed. -/
def scatterDeltaPhi (gauss : ℤ → ℝ) (time : ℤ) (step scatterRate : ℝ) : ℝ :=
  let seed : ℤ := 1
  Real.sqrt (step * scatterRate / c_light) * gauss (if seed ≠ 0 then seed else time)

/-- PropagationBP::process.  Pure model: rv is the random unit vector drawn for
the rotation axis, gauss the normal draw as a function of the generator seed,
time the wall-clock fallback seed.  Returns the updated candidate and the
number of dY evaluations (field samples). -/
def process (sample : Vector3 → ℝ → Vector3) (gauss : ℤ → ℝ) (time : ℤ)
    (rv : Vector3) (minStep maxStep scatterRate minB : ℝ) (cand : Candidate) :
    Candidate × ℕ :=
  let current := cand.current
  let yIn : Y := ⟨current.position, current.direction⟩
  let q := current.charge
  let step := maxStep
  if q = 0 then
    let s := clip cand.nextStep minStep maxStep
    ({ cand with
       previous := current
       current := { current with position := yIn.x + yIn.u * s }
       currentStep := s
       nextStep := maxStep }, 0)
  else
    let newStep := step
    let z := cand.redshift
    let m := current.energy / (c_light * c_light)
    let ybc : (Y × Vector3) × ℕ :=
      if minStep = maxStep then dYn sample yIn.x yIn.u step z q m
      else ((Y.default, Vector3.zero), 0)
    let yOut := ybc.1.1
    let B := ybc.1.2
    let dir := yOut.u.getUnitVector
    let dirNr : Vector3 × ℕ :=
      if minB ≤ B.getR then
        (dir.getRotated (dir.cross rv) (scatterDeltaPhi gauss time step scatterRate),
         current.nrScatter + 1)
      else (dir, current.nrScatter)
    ({ cand with
       previous := current
       current := { current with
                    position := yOut.x
                    direction := dirNr.1
                    nrScatter := dirNr.2 }
       currentStep := step
       nextStep := newStep }, ybc.2)

end PropagationBP

namespace Scatter

/-- The deterministic scattering angle of Scatter::process. -/
def deltaPhi (step scatterRate : ℝ) : ℝ :=
  Real.sqrt (2 * step * scatterRate / c_light)

/-- Scatter::process: rotate the current direction about the axis
direction x rv by deltaPhi; rv is the drawn random unit vector. -/
def process (rv : Vector3) (scatterRate : ℝ) (c : Candidate) : Candidate :=
  let step := c.currentStep
  let dir := c.current.direction
  let rotationAxis := dir.cross rv
  let dir1 := dir.getRotated rotationAxis (deltaPhi step scatterRate)
  { c with current := { c.current with direction := dir1 }, nextStep := step }

end Scatter

/-! Helper lemmas. -/

namespace Vector3

@[simp] theorem add_def (a b : Vector3) :
    a + b = ⟨a.x + b.x, a.y + b.y, a.z + b.z⟩ := rfl

@[simp] theorem sub_def (a b : Vector3) :
    a - b = ⟨a.x - b.x, a.y - b.y, a.z - b.z⟩ := rfl

@[simp] theorem mul_def (v : Vector3) (a : ℝ) :
    v * a = ⟨v.x * a, v.y * a, v.z * a⟩ := rfl

@[simp] theorem div_def (v : Vector3) (a : ℝ) :
    v / a = ⟨v.x / a, v.y / a, v.z / a⟩ := rfl

theorem ext3 {a b : Vector3} (hx : a.x = b.x) (hy : a.y = b.y)
    (hz : a.z = b.z) : a = b := by
  cases a
  cases b
  simp_all

theorem normSq_nonneg (v : Vector3) : 0 ≤ v.normSq := by
  simp only [normSq, dot]
  nlinarith [sq_nonneg v.x, sq_nonneg v.y, sq_nonneg v.z]

theorem normSq_eq_zero_iff (v : Vector3) : v.normSq = 0 ↔ v = zero := by
  constructor
  · intro h
    simp only [normSq, dot] at h
    have hx : v.x = 0 := by nlinarith [sq_nonneg v.x, sq_nonneg v.y, sq_nonneg v.z]
    have hy : v.y = 0 := by nlinarith [sq_nonneg v.x, sq_nonneg v.y, sq_nonneg v.z]
    have hz : v.z = 0 := by nlinarith [sq_nonneg v.x, sq_nonneg v.y, sq_nonneg v.z]
    exact ext3 hx hy hz
  · intro h
    subst h
    simp [normSq, dot, zero]

theorem getR_zero : (zero : Vector3).getR = 0 := by
  simp [getR, normSq, dot, zero]

theorem getUnitVector_zero : (zero : Vector3).getUnitVector = zero := by
  simp [getUnitVector, getR_zero, zero]

theorem normSq_getUnitVector {v : Vector3} (h : v.normSq ≠ 0) :
    v.getUnitVector.normSq = 1 := by
  have h0 : 0 ≤ v.normSq := normSq_nonneg v
  have hsq : Real.sqrt v.normSq * Real.sqrt v.normSq = v.normSq :=
    Real.mul_self_sqrt h0
  simp only [getUnitVector, getR, div_def, normSq, dot] at *
  field_simp

theorem rodrigues_zero_vec (u : Vector3) (angle : ℝ) :
    rodrigues zero u angle = zero := by
  simp only [rodrigues, cross, dot, zero, add_def, mul_def]
  apply ext3 <;> simp

theorem rodrigues_zero_angle (v u : Vector3) : rodrigues v u 0 = v := by
  simp only [rodrigues, Real.cos_zero, Real.sin_zero]
  apply ext3 <;> simp [cross, dot]

theorem getRotated_zero_vec (axis : Vector3) (angle : ℝ) :
    Vector3.getRotated zero axis angle = zero :=
  rodrigues_zero_vec _ _

theorem getRotated_zero_angle (v axis : Vector3) :
    Vector3.getRotated v axis 0 = v :=
  rodrigues_zero_angle _ _

theorem cross_dot_self (a b : Vector3) : (a.cross b).dot a = 0 := by
  simp only [cross, dot]
  ring

/-- A rotation about a unit axis preserves the squared norm. -/
theorem normSq_rodrigues (v u : Vector3) (angle : ℝ) (hu : u.dot u = 1) :
    (rodrigues v u angle).normSq = v.normSq := by
  have hp : Real.sin angle ^ 2 + Real.cos angle ^ 2 = 1 :=
    Real.sin_sq_add_cos_sq angle
  simp only [dot] at hu
  simp only [rodrigues, normSq, dot, cross, add_def, mul_def]
  linear_combination
    (Real.sin angle ^ 2 * (v.x * v.x + v.y * v.y + v.z * v.z) +
      (1 - Real.cos angle) ^ 2 *
        (u.x * v.x + u.y * v.y + u.z * v.z) ^ 2) * hu +
    ((v.x * v.x + v.y * v.y + v.z * v.z) -
      (u.x * v.x + u.y * v.y + u.z * v.z) ^ 2) * hp

/-- A rotation about a nonzero axis preserves the squared norm. -/
theorem normSq_getRotated (v axis : Vector3) (angle : ℝ)
    (h : axis.normSq ≠ 0) :
    (v.getRotated axis angle).normSq = v.normSq :=
  normSq_rodrigues v _ angle (normSq_getUnitVector h)

end Vector3

theorem cos_neg_two_arctan (τ : ℝ) :
    Real.cos (-(2 * Real.arctan τ)) = 1 - τ * (τ * 2 / (1 + τ ^ 2)) := by
  have h0 : (0 : ℝ) < 1 + τ ^ 2 := by positivity
  rw [Real.cos_neg, Real.cos_two_mul, Real.cos_sq_arctan]
  field_simp
  ring

theorem sin_neg_two_arctan (τ : ℝ) :
    Real.sin (-(2 * Real.arctan τ)) = -(τ * 2 / (1 + τ ^ 2)) := by
  have h0 : (0 : ℝ) < 1 + τ ^ 2 := by positivity
  have hs : Real.sqrt (1 + τ ^ 2) * Real.sqrt (1 + τ ^ 2) = 1 + τ ^ 2 :=
    Real.mul_self_sqrt h0.le
  have hne : Real.sqrt (1 + τ ^ 2) ≠ 0 := by
    intro h
    rw [h] at hs
    nlinarith
  rw [Real.sin_neg, Real.sin_two_mul, Real.sin_arctan, Real.cos_arctan]
  field_simp
  left
  ring

/-- The Boris rotation with rotation vector t = bhat * τ (bhat a unit vector)
is exactly the rotation about bhat by the angle -2 arctan τ. -/
theorem boris_eq_rodrigues (d b : Vector3) (τ : ℝ) (hb : b.dot b = 1) :
    d + (d + d.cross (b * τ)).cross
        ((b * τ) * (2 : ℝ) / (1 + (b * τ).dot (b * τ))) =
      Vector3.rodrigues d b (-(2 * Real.arctan τ)) := by
  have hbτ : (b * τ).dot (b * τ) = τ ^ 2 := by
    simp only [Vector3.mul_def, Vector3.dot] at *
    linear_combination (τ ^ 2) * hb
  rw [hbτ, Vector3.rodrigues, cos_neg_two_arctan, sin_neg_two_arctan]
  simp only [Vector3.dot] at hb
  simp only [Vector3.add_def, Vector3.mul_def, Vector3.div_def, Vector3.cross,
    Vector3.dot]
  apply Vector3.ext3 <;> dsimp only
  · linear_combination (-(τ * 2 / (1 + τ ^ 2)) * τ * d.x) * hb
  · linear_combination (-(τ * 2 / (1 + τ ^ 2)) * τ * d.y) * hb
  · linear_combination (-(τ * 2 / (1 + τ ^ 2)) * τ * d.z) * hb

theorem getR_smul_unit {b : Vector3} (hb : b.dot b = 1) (a : ℝ) :
    (b * a).getR = |a| := by
  have h1 : (b * a).normSq = a ^ 2 := by
    simp only [Vector3.normSq, Vector3.dot, Vector3.mul_def] at *
    linear_combination (a ^ 2) * hb
  rw [Vector3.getR, h1, Real.sqrt_sq_eq_abs]

theorem abs_arctan_eq (τ : ℝ) : |Real.arctan τ| = Real.arctan |τ| := by
  rcases le_total 0 τ with h | h
  · rw [abs_of_nonneg h, abs_of_nonneg]
    have h2 := Real.arctan_strictMono.monotone h
    rwa [Real.arctan_zero] at h2
  · rw [abs_of_nonpos h, Real.arctan_neg, abs_of_nonpos]
    have h2 := Real.arctan_strictMono.monotone h
    rwa [Real.arctan_zero] at h2

/-- One Boris push in a uniform field bhat * Bmag, in closed form: the
direction is rotated about bhat and both half position steps are taken. -/
theorem dY_uniform_closed (pos dir bhat : Vector3) (Bmag h z q m : ℝ)
    (hb : bhat.dot bhat = 1) :
    PropagationRS.dY (fun _ _ => bhat * Bmag) pos dir h z q m =
      ⟨pos + dir * h / (2 : ℝ) +
        Vector3.rodrigues dir bhat
          (-(2 * Real.arctan (Bmag * q / 2 / m * h / c_light))) * h / (2 : ℝ),
        Vector3.rodrigues dir bhat
          (-(2 * Real.arctan (Bmag * q / 2 / m * h / c_light)))⟩ := by
  have teq : (bhat * Bmag) * q / (2 : ℝ) / m * h / c_light =
      bhat * (Bmag * q / 2 / m * h / c_light) := by
    apply Vector3.ext3 <;>
      simp only [Vector3.mul_def, Vector3.div_def] <;> ring
  simp only [PropagationRS.dY, teq,
    boris_eq_rodrigues dir bhat (Bmag * q / 2 / m * h / c_light) hb]

/-- C1: one Boris push (the dY of PropagationRS, identical in PropagationBP)
half-steps the position by h/2, samples the field at the half-stepped
position, rotates the direction with the Boris vectors t and s, and half-steps
again with the new direction; in a uniform field bhat * Bmag the new direction
is the old direction rotated about the field axis bhat by the signed angle
-2 atan tau (tau = Bmag q h / (2 m c)), whose magnitude is the analytic
gyration angle 2 atan of the norm of the rotation vector t. -/
theorem dY_uniform_gyration (pos dir bhat : Vector3) (Bmag h z q m : ℝ)
    (hq : q ≠ 0) (hb : bhat.dot bhat = 1) :
    (PropagationRS.dY (fun _ _ => bhat * Bmag) pos dir h z q m).u =
      Vector3.rodrigues dir bhat
        (-(2 * Real.arctan (Bmag * q / 2 / m * h / c_light))) ∧
    (PropagationRS.dY (fun _ _ => bhat * Bmag) pos dir h z q m).x =
      pos + dir * h / (2 : ℝ) +
        Vector3.rodrigues dir bhat
          (-(2 * Real.arctan (Bmag * q / 2 / m * h / c_light))) * h / (2 : ℝ) ∧
    (PropagationBP.dY (fun _ _ => bhat * Bmag) pos dir h z q m).1 =
      PropagationRS.dY (fun _ _ => bhat * Bmag) pos dir h z q m ∧
    |(-(2 * Real.arctan (Bmag * q / 2 / m * h / c_light)))| =
      2 * Real.arctan
        ((bhat * (Bmag * q / 2 / m * h / c_light)).getR) := by
  refine ⟨?_, ?_, rfl, ?_⟩
  · rw [dY_uniform_closed pos dir bhat Bmag h z q m hb]
  · rw [dY_uniform_closed pos dir bhat Bmag h z q m hb]
  · rw [getR_smul_unit hb, abs_neg, abs_mul, ← abs_arctan_eq]
    norm_num

/-- Witness for C1 at a concrete charged particle in a concrete uniform
field. -/
theorem dY_uniform_gyration_witness :
    (1 : ℝ) ≠ 0 ∧ (⟨0, 0, 1⟩ : Vector3).dot ⟨0, 0, 1⟩ = 1 ∧
    ((PropagationRS.dY (fun _ _ => (⟨0, 0, 1⟩ : Vector3) * (1 : ℝ))
        Vector3.zero ⟨1, 0, 0⟩ 1 0 1 1).u =
      Vector3.rodrigues ⟨1, 0, 0⟩ ⟨0, 0, 1⟩
        (-(2 * Real.arctan ((1 : ℝ) * 1 / 2 / 1 * 1 / c_light))) ∧
    (PropagationRS.dY (fun _ _ => (⟨0, 0, 1⟩ : Vector3) * (1 : ℝ))
        Vector3.zero ⟨1, 0, 0⟩ 1 0 1 1).x =
      Vector3.zero + (⟨1, 0, 0⟩ : Vector3) * (1 : ℝ) / (2 : ℝ) +
        Vector3.rodrigues ⟨1, 0, 0⟩ ⟨0, 0, 1⟩
          (-(2 * Real.arctan ((1 : ℝ) * 1 / 2 / 1 * 1 / c_light))) * (1 : ℝ) /
          (2 : ℝ) ∧
    (PropagationBP.dY (fun _ _ => (⟨0, 0, 1⟩ : Vector3) * (1 : ℝ))
        Vector3.zero ⟨1, 0, 0⟩ 1 0 1 1).1 =
      PropagationRS.dY (fun _ _ => (⟨0, 0, 1⟩ : Vector3) * (1 : ℝ))
        Vector3.zero ⟨1, 0, 0⟩ 1 0 1 1 ∧
    |(-(2 * Real.arctan ((1 : ℝ) * 1 / 2 / 1 * 1 / c_light)))| =
      2 * Real.arctan
        (((⟨0, 0, 1⟩ : Vector3) * ((1 : ℝ) * 1 / 2 / 1 * 1 / c_light)).getR)) :=
  ⟨by norm_num, by simp [Vector3.dot],
    dY_uniform_gyration Vector3.zero ⟨1, 0, 0⟩ ⟨0, 0, 1⟩ 1 1 0 1 1
      (by norm_num) (by simp [Vector3.dot])⟩

/-- C2 (amended): one iteration of the PropagationRS step-adjustment loop,
with error ratio r = err(step)/tolerance: if r > 1 and step = minStep the step
is accepted and the loop exits; if r > 1 and step is not minStep the step is
shrunk to step*0.95*r^(-0.2), clamped to at least 0.1*step and at least
minStep, and the estimate is retried; if r <= 1 and step is not maxStep the
step is accepted and the proposed next step is
min(min(step*0.95*r^(-0.2), 5*step), maxStep) - there is no lower clamp to
the accepted step, so the proposal can fall below it; if r <= 1 and
step = maxStep the proposal is left unchanged. -/
theorem adaptiveLoop_iteration (tryF : ℝ → Y × ℝ × ℕ)
    (tolerance minStep maxStep step ns : ℝ) (n cnt : ℕ) :
    (1 < (tryF step).2.1 / tolerance → step = minStep →
      PropagationRS.adaptiveLoop tryF tolerance minStep maxStep (n + 1) step ns cnt =
        some ((tryF step).1, step, ns, cnt + (tryF step).2.2)) ∧
    (1 < (tryF step).2.1 / tolerance → step ≠ minStep →
      PropagationRS.adaptiveLoop tryF tolerance minStep maxStep (n + 1) step ns cnt =
        PropagationRS.adaptiveLoop tryF tolerance minStep maxStep n
          (max (max (step * 0.95 * ((tryF step).2.1 / tolerance) ^ (-0.2 : ℝ))
            (0.1 * step)) minStep)
          (max (max (step * 0.95 * ((tryF step).2.1 / tolerance) ^ (-0.2 : ℝ))
            (0.1 * step)) minStep) (cnt + (tryF step).2.2)) ∧
    (¬ 1 < (tryF step).2.1 / tolerance → step ≠ maxStep →
      PropagationRS.adaptiveLoop tryF tolerance minStep maxStep (n + 1) step ns cnt =
        some ((tryF step).1, step,
          min (min (step * 0.95 * ((tryF step).2.1 / tolerance) ^ (-0.2 : ℝ))
            (5 * step)) maxStep, cnt + (tryF step).2.2)) ∧
    (¬ 1 < (tryF step).2.1 / tolerance → step = maxStep →
      PropagationRS.adaptiveLoop tryF tolerance minStep maxStep (n + 1) step ns cnt =
        some ((tryF step).1, step, ns, cnt + (tryF step).2.2)) := by
  refine ⟨fun h1 h2 => ?_, fun h1 h2 => ?_, fun h1 h2 => ?_, fun h1 h2 => ?_⟩ <;>
    simp only [PropagationRS.adaptiveLoop]
  · rw [if_pos h1, if_pos h2]
  · rw [if_pos h1, if_neg h2]
  · rw [if_neg h1, if_pos h2]
  · rw [if_neg h1, if_neg (fun hn => hn h2)]

/-- Witness for C2: each of the four loop-iteration cases at concrete
inputs. -/
theorem adaptiveLoop_iteration_witness :
    (PropagationRS.adaptiveLoop (fun _ => (Y.default, 2, 3)) 1 1 2 1 1 1 0 =
      some ((Y.default : Y), (1 : ℝ), (1 : ℝ), 0 + 3)) ∧
    (PropagationRS.adaptiveLoop (fun _ => (Y.default, 2, 3)) 1 0 2 1 1 1 0 =
      PropagationRS.adaptiveLoop (fun _ => (Y.default, 2, 3)) 1 0 2 0
        (max (max ((1 : ℝ) * 0.95 * ((2 : ℝ) / 1) ^ (-0.2 : ℝ)) (0.1 * 1)) 0)
        (max (max ((1 : ℝ) * 0.95 * ((2 : ℝ) / 1) ^ (-0.2 : ℝ)) (0.1 * 1)) 0)
        (0 + 3)) ∧
    (PropagationRS.adaptiveLoop (fun _ => (Y.default, 1, 3)) 1 0 2 1 1 1 0 =
      some ((Y.default : Y), (1 : ℝ),
        min (min ((1 : ℝ) * 0.95 * ((1 : ℝ) / 1) ^ (-0.2 : ℝ)) (5 * 1)) 2,
        0 + 3)) ∧
    (PropagationRS.adaptiveLoop (fun _ => (Y.default, 1, 3)) 1 0 2 1 2 1 0 =
      some ((Y.default : Y), (2 : ℝ), (1 : ℝ), 0 + 3)) :=
  ⟨(adaptiveLoop_iteration (fun _ => (Y.default, 2, 3)) 1 1 2 1 1 0 0).1
      (by norm_num) rfl,
   (adaptiveLoop_iteration (fun _ => (Y.default, 2, 3)) 1 0 2 1 1 0 0).2.1
      (by norm_num) (by norm_num),
   (adaptiveLoop_iteration (fun _ => (Y.default, 1, 3)) 1 0 2 1 1 0 0).2.2.1
      (by norm_num) (by norm_num),
   (adaptiveLoop_iteration (fun _ => (Y.default, 1, 3)) 1 0 2 2 1 0 0).2.2.2
      (by norm_num) rfl⟩

/-- C2 counterexample: at error ratio exactly 1 the growth branch proposes
0.95 * step, strictly below the accepted step, so the claimed lower clamp of
the proposal to [h, 5h] is absent from the code. -/
theorem adaptiveLoop_growth_below_accepted :
    PropagationRS.adaptiveLoop (fun _ => (Y.default, 1, 3)) 1 (1 / 2) 10 1 1 1 0 =
      some ((Y.default : Y), (1 : ℝ), (19 / 20 : ℝ), 3) ∧
    (19 / 20 : ℝ) < 1 := by
  constructor
  · simp only [PropagationRS.adaptiveLoop]
    rw [if_neg (by norm_num), if_pos (by norm_num)]
    rw [show ((1 : ℝ) / 1) = 1 by norm_num, Real.one_rpow]
    rw [min_eq_left (by norm_num), min_eq_left (by norm_num)]
    norm_num
  · norm_num

/-- Loop termination auxiliary: once 0.95 ^ n * step has fallen to minStep,
the loop exits within n + 1 iterations. -/
theorem adaptiveLoop_isSome_aux (tryF : ℝ → Y × ℝ × ℕ)
    (tolerance minStep maxStep : ℝ) (hmin : 0 < minStep) :
    ∀ n, ∀ step ns : ℝ, ∀ cnt : ℕ, minStep ≤ step →
      (0.95 : ℝ) ^ n * step ≤ minStep →
      (PropagationRS.adaptiveLoop tryF tolerance minStep maxStep
        (n + 1) step ns cnt).isSome := by
  intro n
  induction n with
  | zero =>
    intro step ns cnt h1 h2
    have hstep : step = minStep := le_antisymm (by simpa using h2) h1
    simp only [PropagationRS.adaptiveLoop]
    by_cases hr : 1 < (tryF step).2.1 / tolerance
    · rw [if_pos hr, if_pos hstep]
      simp
    · rw [if_neg hr]
      by_cases hmx : step ≠ maxStep
      · rw [if_pos hmx]
        simp
      · rw [if_neg hmx]
        simp
  | succ n ih =>
    intro step ns cnt h1 h2
    simp only [PropagationRS.adaptiveLoop]
    by_cases hr : 1 < (tryF step).2.1 / tolerance
    · rw [if_pos hr]
      by_cases hsm : step = minStep
      · rw [if_pos hsm]
        simp
      · rw [if_neg hsm]
        have hstep0 : (0 : ℝ) < step := lt_of_lt_of_le hmin h1
        have hrpow : ((tryF step).2.1 / tolerance) ^ (-0.2 : ℝ) ≤ 1 :=
          Real.rpow_le_one_of_one_le_of_nonpos (le_of_lt hr) (by norm_num)
        have hrpow0 : (0 : ℝ) ≤ ((tryF step).2.1 / tolerance) ^ (-0.2 : ℝ) :=
          Real.rpow_nonneg (by positivity) _
        have ha : step * 0.95 * ((tryF step).2.1 / tolerance) ^ (-0.2 : ℝ) ≤
            0.95 * step := by nlinarith
        have h1' : minStep ≤
            max (max (step * 0.95 * ((tryF step).2.1 / tolerance) ^ (-0.2 : ℝ))
              (0.1 * step)) minStep := le_max_right _ _
        have h2' : (0.95 : ℝ) ^ n *
            max (max (step * 0.95 * ((tryF step).2.1 / tolerance) ^ (-0.2 : ℝ))
              (0.1 * step)) minStep ≤ minStep := by
          by_cases hc :
              max (step * 0.95 * ((tryF step).2.1 / tolerance) ^ (-0.2 : ℝ))
                (0.1 * step) ≤ minStep
          · rw [max_eq_right hc]
            have hp : (0.95 : ℝ) ^ n ≤ 1 := pow_le_one₀ (by norm_num) (by norm_num)
            nlinarith
          · push_neg at hc
            rw [max_eq_left hc.le]
            have hm : max (step * 0.95 * ((tryF step).2.1 / tolerance) ^ (-0.2 : ℝ))
                (0.1 * step) ≤ 0.95 * step := max_le ha (by nlinarith)
            have hpn : (0 : ℝ) ≤ (0.95 : ℝ) ^ n := by positivity
            have := mul_le_mul_of_nonneg_left hm hpn
            have hpow : (0.95 : ℝ) ^ n * (0.95 * step) = (0.95 : ℝ) ^ (n + 1) * step := by
              ring
            nlinarith
        exact ih _ _ _ h1' h2'
    · rw [if_neg hr]
      by_cases hmx : step ≠ maxStep
      · rw [if_pos hmx]
        simp
      · rw [if_neg hmx]
        simp

/-- C3 (amended): for every charged particle in adaptive mode with
minStep > 0, every initial step at least minStep, and every error behaviour
(hence every field model), the step-adjustment retry loop terminates: some
finite fuel makes it exit, either by reaching an error ratio of at most 1 or
by saturating at minStep.  (With minStep = 0 this fails, see the
counterexample.) -/
theorem adaptiveLoop_terminates (tryF : ℝ → Y × ℝ × ℕ)
    (tolerance minStep maxStep step : ℝ)
    (hmin : 0 < minStep) (hstep : minStep ≤ step) :
    ∃ n, (PropagationRS.adaptiveLoop tryF tolerance minStep maxStep
      n step step 0).isSome := by
  have hstep0 : (0 : ℝ) < step := lt_of_lt_of_le hmin hstep
  obtain ⟨n, hn⟩ := exists_pow_lt_of_lt_one (div_pos hmin hstep0)
    (by norm_num : (0.95 : ℝ) < 1)
  refine ⟨n + 1, adaptiveLoop_isSome_aux tryF tolerance minStep maxStep hmin
    n step step 0 hstep ?_⟩
  have := mul_lt_mul_of_pos_right hn hstep0
  rw [div_mul_cancel₀ _ (ne_of_gt hstep0)] at this
  exact this.le

/-- Witness for C3 at a concrete configuration. -/
theorem adaptiveLoop_terminates_witness :
    (0 : ℝ) < 1 ∧ (1 : ℝ) ≤ 1 ∧
    ∃ n, (PropagationRS.adaptiveLoop (fun _ => (Y.default, 0, 3)) 1 1 2
      n 1 1 0).isSome :=
  ⟨by norm_num, by norm_num,
    adaptiveLoop_terminates (fun _ => (Y.default, 0, 3)) 1 1 2 1
      (by norm_num) (by norm_num)⟩

/-- Under the field (0, 0, c/x), a Boris push from the origin along (1,0,0)
turns the direction to (0,-1,0), for every step size. -/
theorem badfield_dY_from_start (h : ℝ) (hh : 0 < h) :
    PropagationRS.dY (fun p _ => (⟨0, 0, c_light / p.x⟩ : Vector3))
      Vector3.zero ⟨1, 0, 0⟩ h 0 1 1 =
      ⟨⟨h / 2, -(h / 2), 0⟩, ⟨0, -1, 0⟩⟩ := by
  have hne : h ≠ 0 := ne_of_gt hh
  have hc : c_light ≠ 0 := by norm_num [c_light]
  have hs : (⟨0, 0, c_light /
      (Vector3.zero + (⟨1, 0, 0⟩ : Vector3) * h / (2 : ℝ)).x⟩ : Vector3) =
      (⟨0, 0, 2 * c_light / h⟩ : Vector3) := by
    apply Vector3.ext3 <;>
      simp only [Vector3.zero, Vector3.add_def, Vector3.mul_def, Vector3.div_def] <;>
      field_simp <;> ring
  have ht : (⟨0, 0, 2 * c_light / h⟩ : Vector3) * (1 : ℝ) / (2 : ℝ) / (1 : ℝ) *
      h / c_light = (⟨0, 0, 1⟩ : Vector3) := by
    apply Vector3.ext3 <;>
      simp only [Vector3.mul_def, Vector3.div_def] <;>
      field_simp <;> ring
  have hs2 : (⟨0, 0, 1⟩ : Vector3) * (2 : ℝ) /
      (1 + (⟨0, 0, 1⟩ : Vector3).dot ⟨0, 0, 1⟩) = (⟨0, 0, 1⟩ : Vector3) := by
    apply Vector3.ext3 <;>
      simp only [Vector3.dot, Vector3.mul_def, Vector3.div_def] <;>
      norm_num
  simp only [PropagationRS.dY, hs, ht, hs2]
  congr 1 <;> apply Vector3.ext3 <;>
    simp only [Vector3.zero, Vector3.add_def, Vector3.mul_def, Vector3.div_def,
      Vector3.cross, Vector3.dot] <;>
    ring

/-- Under the field (0, 0, c/x), a Boris push from (g/2, -(g/2), 0) along
(0,-1,0) with step g turns the direction to (-1,0,0) and ends at (0,-g,0). -/
theorem badfield_dY_second (g : ℝ) (hg : 0 < g) :
    PropagationRS.dY (fun p _ => (⟨0, 0, c_light / p.x⟩ : Vector3))
      ⟨g / 2, -(g / 2), 0⟩ ⟨0, -1, 0⟩ g 0 1 1 =
      ⟨⟨0, -g, 0⟩, ⟨-1, 0, 0⟩⟩ := by
  have hne : g ≠ 0 := ne_of_gt hg
  have hc : c_light ≠ 0 := by norm_num [c_light]
  have hs : (⟨0, 0, c_light /
      ((⟨g / 2, -(g / 2), 0⟩ : Vector3) + (⟨0, -1, 0⟩ : Vector3) * g / (2 : ℝ)).x⟩ :
        Vector3) = (⟨0, 0, 2 * c_light / g⟩ : Vector3) := by
    apply Vector3.ext3 <;>
      simp only [Vector3.add_def, Vector3.mul_def, Vector3.div_def] <;>
      field_simp <;> ring
  have ht : (⟨0, 0, 2 * c_light / g⟩ : Vector3) * (1 : ℝ) / (2 : ℝ) / (1 : ℝ) *
      g / c_light = (⟨0, 0, 1⟩ : Vector3) := by
    apply Vector3.ext3 <;>
      simp only [Vector3.mul_def, Vector3.div_def] <;>
      field_simp <;> ring
  have hs2 : (⟨0, 0, 1⟩ : Vector3) * (2 : ℝ) /
      (1 + (⟨0, 0, 1⟩ : Vector3).dot ⟨0, 0, 1⟩) = (⟨0, 0, 1⟩ : Vector3) := by
    apply Vector3.ext3 <;>
      simp only [Vector3.dot, Vector3.mul_def, Vector3.div_def] <;>
      norm_num
  simp only [PropagationRS.dY, hs, ht, hs2]
  congr 1 <;> apply Vector3.ext3 <;>
    simp only [Vector3.add_def, Vector3.mul_def, Vector3.div_def,
      Vector3.cross, Vector3.dot] <;>
    ring

/-- Under the field (0, 0, c/x), the step-doubling error of tryStep from the
origin along (1,0,0) is 2/3, for every positive step size. -/
theorem badfield_error (h : ℝ) (hh : 0 < h) :
    (PropagationRS.tryStep (fun p _ => (⟨0, 0, c_light / p.x⟩ : Vector3))
      ⟨Vector3.zero, ⟨1, 0, 0⟩⟩ h 0 1 1).2.1 = 2 / 3 := by
  have h2 : (0 : ℝ) < h / 2 := by linarith
  simp only [PropagationRS.tryStep, PropagationRS.dYn]
  rw [badfield_dY_from_start h hh, badfield_dY_from_start (h / 2) h2,
    badfield_dY_second (h / 2) h2]
  show PropagationRS.errorEstimation ⟨h / 2, -(h / 2), 0⟩ ⟨0, -(h / 2), 0⟩ h = 2 / 3
  rw [PropagationRS.errorEstimation]
  have hdiff : ((⟨h / 2, -(h / 2), 0⟩ : Vector3) - ⟨0, -(h / 2), 0⟩) =
      (⟨h / 2, 0, 0⟩ : Vector3) := by
    apply Vector3.ext3 <;> simp
  rw [hdiff]
  have hR : (⟨h / 2, 0, 0⟩ : Vector3).getR = h / 2 := by
    rw [Vector3.getR]
    simp only [Vector3.normSq, Vector3.dot]
    rw [show h / 2 * (h / 2) + 0 * 0 + 0 * 0 = (h / 2) ^ 2 by ring]
    exact Real.sqrt_sq h2.le
  rw [hR]
  have hne : h ≠ 0 := ne_of_gt hh
  field_simp
  ring

/-- With minStep = 0 and the field (0, 0, c/x), the error ratio is 4/3 at
every step size, so the loop never exits: every fuel gives none. -/
theorem adaptiveLoop_badfield_none :
    ∀ n, ∀ step ns : ℝ, ∀ cnt : ℕ, 0 < step →
      PropagationRS.adaptiveLoop
        (fun hh => PropagationRS.tryStep
          (fun p _ => (⟨0, 0, c_light / p.x⟩ : Vector3))
          ⟨Vector3.zero, ⟨1, 0, 0⟩⟩ hh 0 1 1) (1 / 2) 0 1 n step ns cnt =
        none := by
  intro n
  induction n with
  | zero =>
    intro step ns cnt hs
    rfl
  | succ n ih =>
    intro step ns cnt hs
    simp only [PropagationRS.adaptiveLoop]
    rw [badfield_error step hs]
    rw [if_pos (by norm_num : (1 : ℝ) < 2 / 3 / (1 / 2)),
      if_neg (ne_of_gt hs)]
    refine ih _ _ _ ?_
    calc (0 : ℝ) < 0.1 * step := by linarith
    _ ≤ max (step * 0.95 * ((2 : ℝ) / 3 / (1 / 2)) ^ (-0.2 : ℝ)) (0.1 * step) :=
        le_max_right _ _
    _ ≤ max (max (step * 0.95 * ((2 : ℝ) / 3 / (1 / 2)) ^ (-0.2 : ℝ))
          (0.1 * step)) 0 := le_max_left _ _

/-- C3 counterexample: in adaptive mode with minStep = 0 (which the setters
and the fixed-step constructor permit), charge 1, tolerance 1/2, maxStep 1,
initial step 1 and the field model (0, 0, c/x), the step-adjustment loop
never terminates: no finite number of iterations makes it exit. -/
theorem adaptiveLoop_nonterminating_minStep_zero :
    ¬ ∃ n, (PropagationRS.adaptiveLoop
      (fun hh => PropagationRS.tryStep
        (fun p _ => (⟨0, 0, c_light / p.x⟩ : Vector3))
        ⟨Vector3.zero, ⟨1, 0, 0⟩⟩ hh 0 1 1) (1 / 2) 0 1 n 1 1 0).isSome := by
  rintro ⟨n, hn⟩
  rw [adaptiveLoop_badfield_none n 1 1 0 one_pos] at hn
  simp at hn

/-- C4: in PropagationBP with minStep < maxStep and nonzero charge, process
performs no dY evaluation and no field sample (count 0), and the written
position and direction come from the default-constructed Y: the position is
the zero vector and the direction is the unit vector of the zero vector
(zero), unchanged by any scattering rotation - independent of the candidate's
position, direction, and of the field. -/
theorem PropagationBP_process_adaptive_default
    (sample : Vector3 → ℝ → Vector3) (gauss : ℤ → ℝ) (time : ℤ) (rv : Vector3)
    (minStep maxStep scatterRate minB : ℝ) (cand : Candidate)
    (hq : cand.current.charge ≠ 0) (hms : minStep < maxStep) :
    (PropagationBP.process sample gauss time rv minStep maxStep scatterRate
        minB cand).1.current.position = Vector3.zero ∧
    (PropagationBP.process sample gauss time rv minStep maxStep scatterRate
        minB cand).1.current.direction = Vector3.zero ∧
    (PropagationBP.process sample gauss time rv minStep maxStep scatterRate
        minB cand).2 = 0 := by
  have hne : minStep ≠ maxStep := ne_of_lt hms
  refine ⟨?_, ?_, ?_⟩ <;>
    simp only [PropagationBP.process, if_neg hq, if_neg hne, Y.default] <;>
    by_cases hB : minB ≤ (Vector3.zero : Vector3).getR <;>
    simp [hB, Vector3.getUnitVector_zero, Vector3.getRotated_zero_vec]

/-- Witness for C4 at a concrete candidate, field and configuration. -/
theorem PropagationBP_process_adaptive_default_witness :
    ((⟨⟨Vector3.zero, ⟨1, 0, 0⟩, 1, 1, 0⟩,
        ⟨Vector3.zero, ⟨1, 0, 0⟩, 1, 1, 0⟩, 0, 0, 1⟩ :
      Candidate).current.charge ≠ 0) ∧ (1 : ℝ) < 2 ∧
    ((PropagationBP.process (fun _ _ => Vector3.zero) (fun _ => 0) 0 ⟨0, 1, 0⟩
        1 2 0 0 ⟨⟨Vector3.zero, ⟨1, 0, 0⟩, 1, 1, 0⟩,
        ⟨Vector3.zero, ⟨1, 0, 0⟩, 1, 1, 0⟩, 0, 0, 1⟩).1.current.position =
      Vector3.zero ∧
    (PropagationBP.process (fun _ _ => Vector3.zero) (fun _ => 0) 0 ⟨0, 1, 0⟩
        1 2 0 0 ⟨⟨Vector3.zero, ⟨1, 0, 0⟩, 1, 1, 0⟩,
        ⟨Vector3.zero, ⟨1, 0, 0⟩, 1, 1, 0⟩, 0, 0, 1⟩).1.current.direction =
      Vector3.zero ∧
    (PropagationBP.process (fun _ _ => Vector3.zero) (fun _ => 0) 0 ⟨0, 1, 0⟩
        1 2 0 0 ⟨⟨Vector3.zero, ⟨1, 0, 0⟩, 1, 1, 0⟩,
        ⟨Vector3.zero, ⟨1, 0, 0⟩, 1, 1, 0⟩, 0, 0, 1⟩).2 = 0) :=
  ⟨by norm_num, by norm_num,
    PropagationBP_process_adaptive_default (fun _ _ => Vector3.zero)
      (fun _ => 0) 0 ⟨0, 1, 0⟩ 1 2 0 0 _ (by norm_num) (by norm_num)⟩

/-- C5: for a neutral particle (charge 0) both process functions leave the
direction unchanged, advance the position by exactly
direction * clip(nextStep, minStep, maxStep), set currentStep to the clipped
length, reset nextStep to maxStep, sample the field zero times, and do not
depend on the field model at all. -/
theorem process_neutral_rectilinear
    (sample sample2 : Vector3 → ℝ → Vector3) (tolerance minStep maxStep : ℝ)
    (fuel : ℕ) (gauss : ℤ → ℝ) (time : ℤ) (rv : Vector3)
    (scatterRate minB : ℝ) (cand : Candidate)
    (hq : cand.current.charge = 0) :
    PropagationRS.process sample tolerance minStep maxStep fuel cand =
      some ({ cand with
              previous := cand.current
              current := { cand.current with
                position := cand.current.position +
                  cand.current.direction * clip cand.nextStep minStep maxStep }
              currentStep := clip cand.nextStep minStep maxStep
              nextStep := maxStep }, 0) ∧
    PropagationRS.process sample tolerance minStep maxStep fuel cand =
      PropagationRS.process sample2 tolerance minStep maxStep fuel cand ∧
    PropagationBP.process sample gauss time rv minStep maxStep scatterRate
        minB cand =
      ({ cand with
         previous := cand.current
         current := { cand.current with
           position := cand.current.position +
             cand.current.direction * clip cand.nextStep minStep maxStep }
         currentStep := clip cand.nextStep minStep maxStep
         nextStep := maxStep }, 0) ∧
    PropagationBP.process sample gauss time rv minStep maxStep scatterRate
        minB cand =
      PropagationBP.process sample2 gauss time rv minStep maxStep scatterRate
        minB cand := by
  refine ⟨?_, ?_, ?_, ?_⟩ <;>
    simp [PropagationRS.process, PropagationBP.process, hq]

/-- Witness for C5 at a concrete neutral candidate. -/
theorem process_neutral_rectilinear_witness :
    ((⟨⟨Vector3.zero, ⟨1, 0, 0⟩, 1, 0, 0⟩,
        ⟨Vector3.zero, ⟨1, 0, 0⟩, 1, 0, 0⟩, 0, 0, 5⟩ :
      Candidate).current.charge = 0) ∧
    PropagationRS.process (fun _ _ => Vector3.zero) 0.42 1 2 0
        ⟨⟨Vector3.zero, ⟨1, 0, 0⟩, 1, 0, 0⟩,
         ⟨Vector3.zero, ⟨1, 0, 0⟩, 1, 0, 0⟩, 0, 0, 5⟩ =
      some ({ (⟨⟨Vector3.zero, ⟨1, 0, 0⟩, 1, 0, 0⟩,
          ⟨Vector3.zero, ⟨1, 0, 0⟩, 1, 0, 0⟩, 0, 0, 5⟩ : Candidate) with
              previous := (⟨Vector3.zero, ⟨1, 0, 0⟩, 1, 0, 0⟩ : ParticleState)
              current := { (⟨Vector3.zero, ⟨1, 0, 0⟩, 1, 0, 0⟩ : ParticleState) with
                position := Vector3.zero + (⟨1, 0, 0⟩ : Vector3) * clip 5 1 2 }
              currentStep := clip 5 1 2
              nextStep := 2 }, 0) :=
  ⟨rfl,
    ((process_neutral_rectilinear (fun _ _ => Vector3.zero)
      (fun _ _ => Vector3.zero) 0.42 1 2 0 (fun _ => 0) 0 ⟨0, 1, 0⟩ 0 0
      ⟨⟨Vector3.zero, ⟨1, 0, 0⟩, 1, 0, 0⟩,
       ⟨Vector3.zero, ⟨1, 0, 0⟩, 1, 0, 0⟩, 0, 0, 5⟩ rfl).1)⟩

/-- C6 (amended): in fixed-step mode (minStep = maxStep = h) with a charged
particle: PropagationBP evaluates the Boris stepper exactly once (one field
sample) and writes the full-step result; PropagationRS calls its step-doubling
tryStep once, which evaluates the Boris stepper three times (the error
estimate is computed and its result discarded); both leave
currentStep = nextStep = h. -/
theorem process_fixed_mode (sample : Vector3 → ℝ → Vector3)
    (tolerance h : ℝ) (fuel : ℕ) (gauss : ℤ → ℝ) (time : ℤ) (rv : Vector3)
    (scatterRate minB : ℝ) (cand : Candidate)
    (hq : cand.current.charge ≠ 0) :
    Option.map (fun p => (p.1.currentStep, p.1.nextStep, p.2))
        (PropagationRS.process sample tolerance h h fuel cand) =
      some (h, h, 3) ∧
    Option.map (fun p => p.1.current.position)
        (PropagationRS.process sample tolerance h h fuel cand) =
      some ((PropagationRS.dY sample cand.current.position
        cand.current.direction h cand.redshift cand.current.charge
        (cand.current.energy / (c_light * c_light))).x) ∧
    (PropagationBP.process sample gauss time rv h h scatterRate minB
        cand).1.currentStep = h ∧
    (PropagationBP.process sample gauss time rv h h scatterRate minB
        cand).1.nextStep = h ∧
    (PropagationBP.process sample gauss time rv h h scatterRate minB
        cand).2 = 1 ∧
    (PropagationBP.process sample gauss time rv h h scatterRate minB
        cand).1.current.position =
      (PropagationBP.dY sample cand.current.position cand.current.direction h
        cand.redshift cand.current.charge
        (cand.current.energy / (c_light * c_light))).1.x := by
  refine ⟨?_, ?_, ?_, ?_, ?_, ?_⟩ <;>
    simp only [PropagationRS.process, PropagationBP.process, if_neg hq,
      if_pos rfl, PropagationRS.tryStep, PropagationRS.dYn,
      PropagationBP.dYn] <;>
    by_cases hB : minB ≤ (PropagationBP.dY sample cand.current.position
        cand.current.direction h cand.redshift cand.current.charge
        (cand.current.energy / (c_light * c_light))).2.getR <;>
    simp [hB]

/-- Witness for C6 at a concrete charged candidate in fixed-step mode. -/
theorem process_fixed_mode_witness :
    ((⟨⟨Vector3.zero, ⟨1, 0, 0⟩, 1, 1, 0⟩,
        ⟨Vector3.zero, ⟨1, 0, 0⟩, 1, 1, 0⟩, 0, 0, 1⟩ :
      Candidate).current.charge ≠ 0) ∧
    Option.map (fun p => (p.1.currentStep, p.1.nextStep, p.2))
        (PropagationRS.process (fun _ _ => Vector3.zero) 0.42 1 1 0
          ⟨⟨Vector3.zero, ⟨1, 0, 0⟩, 1, 1, 0⟩,
           ⟨Vector3.zero, ⟨1, 0, 0⟩, 1, 1, 0⟩, 0, 0, 1⟩) =
      some ((1 : ℝ), (1 : ℝ), 3) :=
  ⟨by norm_num,
    (process_fixed_mode (fun _ _ => Vector3.zero) 0.42 1 0 (fun _ => 0) 0
      ⟨0, 1, 0⟩ 0 0 ⟨⟨Vector3.zero, ⟨1, 0, 0⟩, 1, 1, 0⟩,
        ⟨Vector3.zero, ⟨1, 0, 0⟩, 1, 1, 0⟩, 0, 0, 1⟩ (by norm_num)).1⟩

/-- C6 counterexample: a concrete fixed-step PropagationRS call evaluates the
Boris stepper (samples the field) three times, not once: the step-doubling
error-estimation path executes even in fixed-step mode. -/
theorem process_fixed_RS_three_samples :
    Option.map (fun p => p.2)
      (PropagationRS.process (fun _ _ => Vector3.zero) 0.42 1 1 0
        ⟨⟨Vector3.zero, ⟨1, 0, 0⟩, 1, 1, 0⟩,
         ⟨Vector3.zero, ⟨1, 0, 0⟩, 1, 1, 0⟩, 0, 0, 1⟩) = some 3 ∧
    (3 : ℕ) ≠ 1 := by
  constructor
  · simp [PropagationRS.process, PropagationRS.tryStep, PropagationRS.dYn]
  · norm_num

/-- The unit vector of any vector has unit squared norm, unless the vector is
zero, in which case the unit vector is the zero vector. -/
theorem Vector3_normSq_getUnitVector_or (v : Vector3) :
    v.getUnitVector.normSq = 1 ∨ v.getUnitVector = Vector3.zero := by
  by_cases h : v.normSq = 0
  · right
    rw [(Vector3.normSq_eq_zero_iff v).mp h]
    exact Vector3.getUnitVector_zero
  · left
    exact Vector3.normSq_getUnitVector h

/-- C7 (amended): PropagationRS's process renormalizes the written direction
of a charged particle: it has unit squared norm unless the Boris output
direction is the zero vector (then it is zero); Scatter's rotation preserves
the squared norm whenever the rotation axis direction x rv is nonzero, but
applies no renormalization of its own.  (PropagationBP's adaptive mode writes
the zero direction, see the counterexample.) -/
theorem direction_norm_after_process
    (sample : Vector3 → ℝ → Vector3) (tolerance minStep maxStep : ℝ)
    (fuel : ℕ) (cand : Candidate) (rv : Vector3) (scatterRate : ℝ)
    (c2 : Candidate) (hq : cand.current.charge ≠ 0)
    (hax : (c2.current.direction.cross rv).normSq ≠ 0) :
    (Option.elim
      (PropagationRS.process sample tolerance minStep maxStep fuel cand) True
      (fun p => p.1.current.direction.normSq = 1 ∨
        p.1.current.direction = Vector3.zero)) ∧
    (Scatter.process rv scatterRate c2).current.direction.normSq =
      c2.current.direction.normSq := by
  constructor
  · simp only [PropagationRS.process, if_neg hq]
    by_cases hms : minStep = maxStep
    · rw [if_pos hms]
      exact Vector3_normSq_getUnitVector_or _
    · rw [if_neg hms]
      cases hopt : PropagationRS.adaptiveLoop
          (fun h => PropagationRS.tryStep sample
            ⟨cand.current.position, cand.current.direction⟩ h cand.redshift
            (cand.current.energy / (c_light * c_light)) cand.current.charge)
          tolerance minStep maxStep fuel
          (clip cand.nextStep minStep maxStep)
          (clip cand.nextStep minStep maxStep) 0 with
      | none => simp [hopt]
      | some p =>
        obtain ⟨y, st, ns, cnt⟩ := p
        simp only [hopt, Option.elim]
        exact Vector3_normSq_getUnitVector_or _
  · simp only [Scatter.process]
    exact Vector3.normSq_getRotated _ _ _ hax

/-- Witness for C7 at a concrete charged candidate and a concrete scattering
input. -/
theorem direction_norm_after_process_witness :
    ((⟨⟨Vector3.zero, ⟨1, 0, 0⟩, 1, 1, 0⟩,
        ⟨Vector3.zero, ⟨1, 0, 0⟩, 1, 1, 0⟩, 0, 0, 1⟩ :
      Candidate).current.charge ≠ 0) ∧
    (((⟨⟨Vector3.zero, ⟨1, 0, 0⟩, 1, 1, 0⟩,
        ⟨Vector3.zero, ⟨1, 0, 0⟩, 1, 1, 0⟩, 0, 0, 1⟩ :
      Candidate).current.direction.cross ⟨0, 1, 0⟩).normSq ≠ 0) ∧
    (Option.elim
      (PropagationRS.process (fun _ _ => Vector3.zero) 0.42 1 1 0
        ⟨⟨Vector3.zero, ⟨1, 0, 0⟩, 1, 1, 0⟩,
         ⟨Vector3.zero, ⟨1, 0, 0⟩, 1, 1, 0⟩, 0, 0, 1⟩) True
      (fun p => p.1.current.direction.normSq = 1 ∨
        p.1.current.direction = Vector3.zero)) ∧
    (Scatter.process ⟨0, 1, 0⟩ 1
        ⟨⟨Vector3.zero, ⟨1, 0, 0⟩, 1, 1, 0⟩,
         ⟨Vector3.zero, ⟨1, 0, 0⟩, 1, 1, 0⟩, 0, 0, 1⟩).current.direction.normSq =
      (⟨⟨Vector3.zero, ⟨1, 0, 0⟩, 1, 1, 0⟩,
        ⟨Vector3.zero, ⟨1, 0, 0⟩, 1, 1, 0⟩, 0, 0, 1⟩ :
        Candidate).current.direction.normSq :=
  ⟨by norm_num,
   by simp [Vector3.cross, Vector3.normSq, Vector3.dot],
   (direction_norm_after_process (fun _ _ => Vector3.zero) 0.42 1 1 0
      ⟨⟨Vector3.zero, ⟨1, 0, 0⟩, 1, 1, 0⟩,
       ⟨Vector3.zero, ⟨1, 0, 0⟩, 1, 1, 0⟩, 0, 0, 1⟩ ⟨0, 1, 0⟩ 1
      ⟨⟨Vector3.zero, ⟨1, 0, 0⟩, 1, 1, 0⟩,
       ⟨Vector3.zero, ⟨1, 0, 0⟩, 1, 1, 0⟩, 0, 0, 1⟩ (by norm_num)
      (by simp [Vector3.cross, Vector3.normSq, Vector3.dot])).1,
   (direction_norm_after_process (fun _ _ => Vector3.zero) 0.42 1 1 0
      ⟨⟨Vector3.zero, ⟨1, 0, 0⟩, 1, 1, 0⟩,
       ⟨Vector3.zero, ⟨1, 0, 0⟩, 1, 1, 0⟩, 0, 0, 1⟩ ⟨0, 1, 0⟩ 1
      ⟨⟨Vector3.zero, ⟨1, 0, 0⟩, 1, 1, 0⟩,
       ⟨Vector3.zero, ⟨1, 0, 0⟩, 1, 1, 0⟩, 0, 0, 1⟩ (by norm_num)
      (by simp [Vector3.cross, Vector3.normSq, Vector3.dot])).2⟩

/-- C7 counterexample: a charged particle processed by PropagationBP in
adaptive mode, starting from a unit direction, gets a written direction of
squared norm 0, not 1. -/
theorem direction_not_unit_BP_adaptive :
    (PropagationBP.process (fun _ _ => Vector3.zero) (fun _ => 0) 0 ⟨0, 1, 0⟩
        1 2 0 1 ⟨⟨Vector3.zero, ⟨1, 0, 0⟩, 1, 1, 0⟩,
        ⟨Vector3.zero, ⟨1, 0, 0⟩, 1, 1, 0⟩, 0, 0, 1⟩).1.current.direction.normSq =
      0 ∧ (0 : ℝ) ≠ 1 := by
  constructor
  · norm_num [PropagationBP.process, Y.default, Vector3.getR_zero,
      Vector3.getUnitVector_zero, Vector3.normSq_eq_zero_iff]
  · norm_num

/-- C8 (amended): the scattering rotation axis direction x rv is perpendicular
to the direction; at scatterRate = 0 both Scatter and PropagationBP's
scattering branch leave the direction unchanged (rotation by angle 0); the
angle Scatter uses is sqrt(2 step scatterRate / c) with no random scaling,
while PropagationBP's is sqrt(step scatterRate / c) scaled by the normal draw
of the generator seeded with 1. -/
theorem scatter_axis_perp_and_rate_zero
    (c : Candidate) (rv : Vector3) (gauss : ℤ → ℝ) (time : ℤ)
    (step scatterRate : ℝ) :
    (c.current.direction.cross rv).dot c.current.direction = 0 ∧
    (Scatter.process rv 0 c).current.direction = c.current.direction ∧
    Scatter.deltaPhi step scatterRate =
      Real.sqrt (2 * step * scatterRate / c_light) ∧
    PropagationBP.scatterDeltaPhi gauss time step 0 = 0 ∧
    PropagationBP.scatterDeltaPhi gauss time step scatterRate =
      Real.sqrt (step * scatterRate / c_light) * gauss 1 := by
  refine ⟨Vector3.cross_dot_self _ _, ?_, rfl, ?_, ?_⟩
  · simp only [Scatter.process, Scatter.deltaPhi]
    rw [show 2 * c.currentStep * 0 / c_light = 0 by ring, Real.sqrt_zero,
      Vector3.getRotated_zero_angle]
  · simp [PropagationBP.scatterDeltaPhi]
  · simp [PropagationBP.scatterDeltaPhi]

/-- C8 counterexample: at step = c and scatterRate = 1 the angle Scatter
actually uses is sqrt 2, while the claimed formula sqrt(step scatterRate / c)
gives 1: the factor 2 inside Scatter's square root contradicts the claim. -/
theorem Scatter_deltaPhi_ne_claimed :
    Scatter.deltaPhi c_light 1 = Real.sqrt 2 ∧
    Real.sqrt (c_light * 1 / c_light) = 1 ∧
    Real.sqrt 2 ≠ 1 := by
  refine ⟨?_, ?_, ?_⟩
  · rw [Scatter.deltaPhi, show 2 * c_light * 1 / c_light = 2 by
      norm_num [c_light]]
  · rw [show c_light * 1 / c_light = 1 by norm_num [c_light], Real.sqrt_one]
  · intro hcontra
    have h2 : Real.sqrt 2 ^ 2 = 2 := Real.sq_sqrt (by norm_num)
    rw [hcontra] at h2
    norm_num at h2

/-- C9: getFieldAtPosition of both propagation modules returns the sampled
field vector, and the zero vector both when no field is set and when the
field model fails; a zero field sample makes the Boris push exactly
rectilinear: position advanced by direction * step, direction unchanged. -/
theorem getFieldAtPosition_failsoft (pos dir : Vector3) (z step q m : ℝ)
    (f : FieldModel) (B : Vector3) :
    PropagationRS.getFieldAtPosition none pos z = Vector3.zero ∧
    PropagationBP.getFieldAtPosition none pos z = Vector3.zero ∧
    (f pos z = none →
      PropagationRS.getFieldAtPosition (some f) pos z = Vector3.zero ∧
      PropagationBP.getFieldAtPosition (some f) pos z = Vector3.zero) ∧
    (f pos z = some B →
      PropagationRS.getFieldAtPosition (some f) pos z = B ∧
      PropagationBP.getFieldAtPosition (some f) pos z = B) ∧
    PropagationRS.dY (fun _ _ => Vector3.zero) pos dir step z q m =
      ⟨pos + dir * step, dir⟩ := by
  refine ⟨rfl, rfl, fun h => ?_, fun h => ?_, ?_⟩
  · constructor <;>
      simp [PropagationRS.getFieldAtPosition,
        PropagationBP.getFieldAtPosition, h]
  · constructor <;>
      simp [PropagationRS.getFieldAtPosition,
        PropagationBP.getFieldAtPosition, h]
  · simp only [PropagationRS.dY, Vector3.zero]
    congr 1 <;> apply Vector3.ext3 <;>
      simp only [Vector3.add_def, Vector3.mul_def, Vector3.div_def,
        Vector3.cross, Vector3.dot] <;>
      field_simp <;> ring

/-- Witness for C9: a failing field model yields the zero vector, a working
one its value. -/
theorem getFieldAtPosition_failsoft_witness :
    (PropagationRS.getFieldAtPosition (some (fun _ _ => none)) Vector3.zero 0 =
        Vector3.zero ∧
      PropagationBP.getFieldAtPosition (some (fun _ _ => none)) Vector3.zero 0 =
        Vector3.zero) ∧
    (PropagationRS.getFieldAtPosition (some (fun _ _ => some ⟨1, 2, 3⟩))
        Vector3.zero 0 = ⟨1, 2, 3⟩ ∧
      PropagationBP.getFieldAtPosition (some (fun _ _ => some ⟨1, 2, 3⟩))
        Vector3.zero 0 = ⟨1, 2, 3⟩) :=
  ⟨(getFieldAtPosition_failsoft Vector3.zero Vector3.zero 0 0 0 0
      (fun _ _ => none) Vector3.zero).2.2.1 rfl,
   (getFieldAtPosition_failsoft Vector3.zero Vector3.zero 0 0 0 0
      (fun _ _ => some ⟨1, 2, 3⟩) ⟨1, 2, 3⟩).2.2.2.1 rfl⟩

/-- C10: PropagationBP's scattering branch re-seeds its generator with the
constant seed 1 on every call, so the drawn Gaussian scalar, and hence the
scattering angle, is a function of step and scatterRate only: two calls at
different wall-clock times with equal step and scatterRate produce the
identical angle. -/
theorem scatterDeltaPhi_reseeded_deterministic (gauss : ℤ → ℝ)
    (time1 time2 : ℤ) (step scatterRate : ℝ) :
    PropagationBP.scatterDeltaPhi gauss time1 step scatterRate =
      PropagationBP.scatterDeltaPhi gauss time2 step scatterRate ∧
    PropagationBP.scatterDeltaPhi gauss time1 step scatterRate =
      Real.sqrt (step * scatterRate / c_light) * gauss 1 := by
  constructor <;> simp [PropagationBP.scatterDeltaPhi]

end crpropa
